import Mathlib

/-!
Verification of the go-wework-svc callback crypto and protocol core.

The Go source is shallowly embedded: strings and byte slices become
`List Nat` (every entry a byte value), fallible operations return
`Except`-like result types, and the places where the Go code can only
panic (slice expressions whose bounds fail at run time) are a distinct
`panicked` outcome.  The AES block cipher, the SHA-1 compression
function and the two XML parsers live in the Go standard library, not in
this repository; they enter the model as explicit function parameters,
constrained only by the properties the library guarantees.
-/

namespace WeworkSvc

/-- Byte values of an ASCII string literal (all literals used are ASCII,
so code points and UTF-8 bytes agree). -/
def ascii (s : String) : List Nat := s.data.map Char.toNat

/-- Every entry of the list is a byte value. -/
def isBytes (l : List Nat) : Prop := ∀ x ∈ l, x < 256

instance (l : List Nat) : Decidable (isBytes l) :=
  inferInstanceAs (Decidable (∀ x ∈ l, x < 256))

/-- Contiguous-subsequence test, modelling Go strings.Contains. -/
def containsSeq (s pat : List Nat) : Bool := s.tails.any (fun t => pat.isPrefixOf t)

/-- Decimal digit expansion helper, structural in the fuel so that the
kernel can evaluate it. -/
def decimalAux : Nat → Nat → List Nat
  | 0, _ => []
  | fuel + 1, n => if n < 10 then [48 + n] else decimalAux fuel (n / 10) ++ [48 + n % 10]

/-- ASCII decimal rendering of a natural number, as fmt's %d prints it. -/
def decimal (n : Nat) : List Nat := decimalAux (n + 1) n

/-- Go-style lexicographic byte-string comparison, s < t. -/
def lexLt : List Nat → List Nat → Bool
  | _, [] => false
  | [], _ :: _ => true
  | a :: as, b :: bs => if a < b then true else if b < a then false else lexLt as bs

/-- The non-strict order sort.Strings sorts by: a comes no later than b. -/
def strLe (a b : List Nat) : Prop := lexLt b a = false

instance : DecidableRel strLe := fun _ _ => inferInstanceAs (Decidable (_ = false))

theorem lexLt_trans {a b c : List Nat} (h1 : lexLt a b = true) (h2 : lexLt b c = true) :
    lexLt a c = true := by
  induction a generalizing b c with
  | nil =>
    cases b with
    | nil => simp [lexLt] at h1
    | cons y ys =>
      cases c with
      | nil => simp [lexLt] at h2
      | cons z zs => simp [lexLt]
  | cons x xs ih =>
    cases b with
    | nil => simp [lexLt] at h1
    | cons y ys =>
      cases c with
      | nil => simp [lexLt] at h2
      | cons z zs =>
        rcases Nat.lt_trichotomy x y with hxy | hxy | hxy
        · rcases Nat.lt_trichotomy y z with hyz | hyz | hyz
          · simp [lexLt, Nat.lt_trans hxy hyz]
          · subst hyz; simp [lexLt, hxy]
          · simp [lexLt, Nat.lt_asymm hyz, hyz] at h2
        · subst hxy
          rcases Nat.lt_trichotomy x z with hyz | hyz | hyz
          · simp [lexLt, hyz]
          · subst hyz
            simp only [lexLt, if_neg (Nat.lt_irrefl x)] at h1 h2 ⊢
            exact ih h1 h2
          · simp [lexLt, Nat.lt_asymm hyz, hyz] at h2
        · simp [lexLt, Nat.lt_asymm hxy, hxy] at h1

theorem lexLt_irrefl (a : List Nat) : lexLt a a = false := by
  induction a with
  | nil => rfl
  | cons x xs ih => simp [lexLt, ih]

theorem lexLt_asymm {a b : List Nat} (h : lexLt a b = true) : lexLt b a = false := by
  cases hh : lexLt b a
  · rfl
  · have := lexLt_trans h hh
    rw [lexLt_irrefl] at this
    exact absurd this (by simp)

theorem lexLt_antisymm : ∀ {a b : List Nat}, lexLt a b = false → lexLt b a = false → a = b := by
  intro a
  induction a with
  | nil =>
    intro b h1 _
    cases b with
    | nil => rfl
    | cons y ys => simp [lexLt] at h1
  | cons x xs ih =>
    intro b h1 h2
    cases b with
    | nil => simp [lexLt] at h2
    | cons y ys =>
      rcases Nat.lt_trichotomy x y with h | h | h
      · simp [lexLt, h] at h1
      · subst h
        simp only [lexLt, if_neg (Nat.lt_irrefl x)] at h1 h2
        rw [ih h1 h2]
      · simp [lexLt, Nat.lt_asymm h, h] at h2

instance : IsTotal (List Nat) strLe where
  total a b := by
    unfold strLe
    cases h : lexLt b a
    · left; rfl
    · right; exact lexLt_asymm h

instance : IsTrans (List Nat) strLe where
  trans a b c hab hbc := by
    unfold strLe at hab hbc ⊢
    cases hca : lexLt c a
    · rfl
    · exfalso
      cases hbcLt : lexLt b c
      · have : b = c := lexLt_antisymm hbcLt hbc
        subst this
        simp [hab] at hca
      · have := lexLt_trans hbcLt hca
        simp [hab] at this

/-- The sorted rearrangement sort.Strings produces (ascending
lexicographic byte order; the sorted list is unique because the order is
total and antisymmetric). -/
def sortStrings (l : List (List Nat)) : List (List Nat) := List.insertionSort strLe l

/-- One lowercase hexadecimal digit, as fmt's %x renders a nibble. -/
def hexDigit (n : Nat) : Nat := if n < 10 then 48 + n else 87 + n

/-- Lowercase hexadecimal rendering of a byte string, as fmt's %x
renders a byte array: two digits per byte, no separators. -/
def hexLower (bs : List Nat) : List Nat :=
  bs.flatMap (fun b => [hexDigit (b % 256 / 16), hexDigit (b % 16)])

/-- VerifySignature from the source: sort the four parameter strings,
join them with no separator, hash, render lowercase hex, compare
byte-for-byte with the supplied signature.  `h` is the SHA-1 function of
the Go standard library, a parameter of the model. -/
def verifySignature (h : List Nat → List Nat)
    (token sig ts nonce enc : List Nat) : Bool :=
  hexLower (h (List.flatten (sortStrings [token, ts, nonce, enc]))) == sig

/-! ### Base64 (encoding/base64 StdEncoding, padded alphabet) -/

/-- The standard base64 alphabet as byte values. -/
def b64Alphabet : List Nat :=
  ascii "ABCDEFGHIJKLMNOPQRSTUVWXYZabcdefghijklmnopqrstuvwxyz0123456789+/"

/-- The alphabet character for a 6-bit value. -/
def b64Char (n : Nat) : Nat := b64Alphabet.getD n 0

/-- The 6-bit value of an alphabet character, none for a byte outside the
alphabet. -/
def b64Val (c : Nat) : Option Nat := b64Alphabet.findIdx? (fun x => x == c)

/-- base64 encoding of a byte string, three input bytes per four output
characters, '=' padding on a short final group. -/
def b64Encode : List Nat → List Nat
  | [] => []
  | [a] => [b64Char (a / 4), b64Char (a % 4 * 16), 61, 61]
  | [a, b] => [b64Char (a / 4), b64Char (a % 4 * 16 + b / 16), b64Char (b % 16 * 4), 61]
  | a :: b :: c :: rest =>
    b64Char (a / 4) :: b64Char (a % 4 * 16 + b / 16) :: b64Char (b % 16 * 4 + c / 64) ::
      b64Char (c % 64) :: b64Encode rest

/-- base64 decoding: four characters per group, '=' only in the final
group, any non-alphabet byte rejected; none models the decode error.
Like Go's default (non-strict) decoder, trailing nonzero bits in a
padded final group are discarded, not rejected. -/
def b64Decode : List Nat → Option (List Nat)
  | [] => some []
  | c1 :: c2 :: c3 :: c4 :: rest =>
    match b64Val c1, b64Val c2 with
    | some v1, some v2 =>
      if c3 == 61 then
        if rest == [] && c4 == 61 then some [v1 * 4 + v2 / 16] else none
      else
        match b64Val c3 with
        | some v3 =>
          if c4 == 61 then
            if rest == [] then some [v1 * 4 + v2 / 16, v2 % 16 * 16 + v3 / 4] else none
          else
            match b64Val c4 with
            | some v4 =>
              match b64Decode rest with
              | some tail =>
                some ([v1 * 4 + v2 / 16, v2 % 16 * 16 + v3 / 4, v3 % 4 * 64 + v4] ++ tail)
              | none => none
            | none => none
        | none => none
    | _, _ => none
  | _ => none

theorem b64Val_b64Char : ∀ n < 64, b64Val (b64Char n) = some n := by decide

theorem b64Char_ne_pad : ∀ n < 64, (b64Char n == 61) = false := by decide

theorem b64_roundtrip : ∀ (fuel : Nat) (bs : List Nat), bs.length ≤ fuel → isBytes bs →
    b64Decode (b64Encode bs) = some bs := by
  intro fuel
  induction fuel with
  | zero =>
    intro bs hlen _
    have : bs = [] := List.length_eq_zero.mp (Nat.le_zero.mp hlen)
    subst this
    rfl
  | succ n ih =>
    intro bs hlen hb
    match bs with
    | [] => rfl
    | [a] =>
      have ha : a < 256 := hb a (by simp)
      rw [b64Encode, b64Decode]
      rw [b64Val_b64Char (a / 4) (by omega), b64Val_b64Char (a % 4 * 16) (by omega)]
      simp only [beq_self_eq_true, Bool.and_self, if_true]
      have e1 : a / 4 * 4 + a % 4 * 16 / 16 = a := by omega
      rw [e1]
    | [a, b] =>
      have ha : a < 256 := hb a (by simp)
      have hbb : b < 256 := hb b (by simp)
      rw [b64Encode, b64Decode]
      rw [b64Val_b64Char (a / 4) (by omega), b64Val_b64Char (a % 4 * 16 + b / 16) (by omega)]
      rw [b64Char_ne_pad (b % 16 * 4) (by omega)]
      simp only [if_false, Bool.false_eq_true]
      rw [b64Val_b64Char (b % 16 * 4) (by omega)]
      simp only [beq_self_eq_true, if_true]
      have e1 : a / 4 * 4 + (a % 4 * 16 + b / 16) / 16 = a := by omega
      have e2 : (a % 4 * 16 + b / 16) % 16 * 16 + b % 16 * 4 / 4 = b := by omega
      rw [e1, e2]
    | a :: b :: c :: rest =>
      have ha : a < 256 := hb a (by simp)
      have hbb : b < 256 := hb b (by simp)
      have hc : c < 256 := hb c (by simp)
      have hrest : isBytes rest := fun x hx => hb x (by simp [hx])
      have hrlen : rest.length ≤ n := by
        have h3 : (a :: b :: c :: rest).length = rest.length + 3 := by simp
        omega
      rw [b64Encode, b64Decode]
      rw [b64Val_b64Char (a / 4) (by omega), b64Val_b64Char (a % 4 * 16 + b / 16) (by omega)]
      rw [b64Char_ne_pad (b % 16 * 4 + c / 64) (by omega)]
      simp only [if_false, Bool.false_eq_true]
      rw [b64Val_b64Char (b % 16 * 4 + c / 64) (by omega)]
      rw [b64Char_ne_pad (c % 64) (by omega)]
      simp only [if_false, Bool.false_eq_true]
      rw [b64Val_b64Char (c % 64) (by omega)]
      rw [ih rest hrlen hrest]
      have e1 : a / 4 * 4 + (a % 4 * 16 + b / 16) / 16 = a := by omega
      have e2 : (a % 4 * 16 + b / 16) % 16 * 16 + (b % 16 * 4 + c / 64) / 4 = b := by omega
      have e3 : (b % 16 * 4 + c / 64) % 4 * 64 + c % 64 = c := by omega
      rw [e1, e2]
      simp [e3]

/-! ### Block cipher and CBC mode

crypto/aes and crypto/cipher are Go standard library; the block cipher
is a parameter of the model.  CBC with the source's convention IV =
aesKey[:16] is transcribed here. -/

/-- An abstract 16-byte block cipher: the forward and inverse block
permutations that crypto/aes supplies. -/
structure BlockCipher where
  encB : List Nat → List Nat
  decB : List Nat → List Nat

/-- The properties crypto/aes guarantees of its block permutation on
16-byte blocks, the only facts the proofs use. -/
def GoodCipher (bc : BlockCipher) : Prop :=
  ∀ b, b.length = 16 → isBytes b →
    (bc.encB b).length = 16 ∧ isBytes (bc.encB b) ∧ bc.decB (bc.encB b) = b

/-- Pointwise XOR of two equal-length byte strings. -/
def xorBytes (a b : List Nat) : List Nat := List.zipWith (fun x y => x ^^^ y) a b

/-- CBC encryption over a block list, chaining from prev (initially the
IV), as cipher.NewCBCEncrypter applies the block cipher. -/
def cbcEnc (bc : BlockCipher) : List Nat → List (List Nat) → List (List Nat)
  | _, [] => []
  | prev, b :: bs =>
    let c := bc.encB (xorBytes prev b)
    c :: cbcEnc bc c bs

/-- CBC decryption over a block list, as cipher.NewCBCDecrypter applies
the inverse block cipher. -/
def cbcDec (bc : BlockCipher) : List Nat → List (List Nat) → List (List Nat)
  | _, [] => []
  | prev, b :: bs => xorBytes prev (bc.decB b) :: cbcDec bc b bs

/-- Splitting a byte string into 16-byte blocks; the fuel argument makes
the recursion structural so the kernel can evaluate it. -/
def toBlocksAux : Nat → List Nat → List (List Nat)
  | 0, _ => []
  | _ + 1, [] => []
  | fuel + 1, l => l.take 16 :: toBlocksAux fuel (l.drop 16)

/-- The 16-byte blocks of a byte string. -/
def toBlocks (l : List Nat) : List (List Nat) := toBlocksAux l.length l

/-! ### PKCS#7 padding (pkcs7Pad and pkcs7Unpad from the source) -/

/-- pkcs7Pad with the AES block size of 16: append p copies of p, where
p = 16 - len % 16 (a full block when already aligned). -/
def pkcs7Pad (data : List Nat) : List Nat :=
  data ++ List.replicate (16 - data.length % 16) (16 - data.length % 16)

/-- Rejection reasons of pkcs7Unpad, one per return in the source. -/
inductive UnpadErr where
  | empty
  | invalidValue (p : Nat)
  | exceeds (p len : Nat)
  | badByte (i : Nat)
deriving DecidableEq

/-- pkcs7Unpad from the source: read the last byte as the padding length
p; reject p = 0, p > 16, p > len, or any of the last p bytes not equal
to p (reporting the first bad position); otherwise drop the last p
bytes. -/
def pkcs7Unpad (data : List Nat) : Except UnpadErr (List Nat) :=
  match data.getLast? with
  | none => .error .empty
  | some p =>
    if p = 0 ∨ 16 < p then .error (.invalidValue p)
    else if data.length < p then .error (.exceeds p data.length)
    else
      match (data.drop (data.length - p)).findIdx? (fun x => x != p) with
      | some j => .error (.badByte (data.length - p + j))
      | none => .ok (data.take (data.length - p))

/-! ### Wire payload parsing and the Decrypt/Encrypt pipeline -/

/-- Big-endian 32-bit read of a 4-byte slice, binary.BigEndian.Uint32. -/
def be32Read (bs : List Nat) : Nat :=
  match bs with
  | [a, b, c, d] => a * 16777216 + b * 65536 + c * 256 + d
  | _ => 0

/-- Big-endian 32-bit write, binary.BigEndian.PutUint32 of uint32(n). -/
def be32Write (n : Nat) : List Nat :=
  [n % 4294967296 / 16777216, n / 65536 % 256, n / 256 % 256, n % 256]

/-- Decrypt's failure reasons, one per error return in the source. -/
inductive DecErr where
  | decode
  | alignment (n : Nat)
  | cipherInit (n : Nat)
  | padding (e : UnpadErr)
  | tooShort (n : Nat)
  | lengthMismatch (msgLen total : Nat)
  | corpMismatch (got want : List Nat)
deriving DecidableEq

/-- Outcome of running Decrypt: a message, an error return, or a run
time panic of the Go slice expression plaintext[20 : 20+msgLen]. -/
inductive DResult where
  | ok (msg : List Nat)
  | fail (e : DecErr)
  | panicked
deriving DecidableEq

/-- The key material a cryptoImpl instance holds. -/
structure CryptoCtx where
  token : List Nat
  aesKey : List Nat
  corpID : List Nat

/-- Steps 5-7 of Decrypt on the unpadded plaintext: require at least 20
bytes, read the big-endian length at bytes 16..20, compare it against
the total length in uint32 arithmetic exactly as the Go code does
(uint32(len(plaintext)) < 20+msgLen, both sides wrapping mod 2^32),
slice out the message and trailing corp ID, and compare the corp ID.
A wrapped upper bound 20+msgLen below 20 makes the slice expression
plaintext[20 : 20+msgLen] panic. -/
def parsePlain (corp plain : List Nat) : DResult :=
  if plain.length < 20 then .fail (.tooShort plain.length)
  else
    let msgLen := be32Read ((plain.drop 16).take 4)
    if plain.length % 4294967296 < (20 + msgLen) % 4294967296 then
      .fail (.lengthMismatch msgLen plain.length)
    else
      let hi := (20 + msgLen) % 4294967296
      if hi < 20 ∨ plain.length < hi then .panicked
      else
        let msg := (plain.drop 20).take (hi - 20)
        let got := plain.drop hi
        if got = corp then .ok msg else .fail (.corpMismatch got corp)

/-- Decrypt after base64 decoding: block-alignment check, cipher
construction (aes.NewCipher; NewCrypto only ever passes 32-byte keys,
the sole size a cryptoImpl can hold), CBC decryption with IV =
aesKey[:16], padding removal, and plaintext parsing. -/
def decryptBytes (ctx : CryptoCtx) (bc : BlockCipher) (ct : List Nat) : DResult :=
  if ct.length = 0 ∨ ct.length % 16 ≠ 0 then .fail (.alignment ct.length)
  else if ctx.aesKey.length ≠ 32 then .fail (.cipherInit ctx.aesKey.length)
  else
    match pkcs7Unpad (List.flatten (cbcDec bc (ctx.aesKey.take 16) (toBlocks ct))) with
    | .error e => .fail (.padding e)
    | .ok plain => parsePlain ctx.corpID plain

/-- cryptoImpl.Decrypt: base64 decode, then the byte pipeline. -/
def decryptStr (ctx : CryptoCtx) (bc : BlockCipher) (s : List Nat) : DResult :=
  match b64Decode s with
  | none => .fail .decode
  | some ct => decryptBytes ctx bc ct

/-- cryptoImpl.Encrypt given the 16 random bytes the source draws from
crypto/rand: assemble random ∥ length(4, BE) ∥ message ∥ corpID, pad,
CBC-encrypt with IV = aesKey[:16], base64-encode.  (The only error
return, aes.NewCipher on a wrong-size key, is unreachable for the
32-byte keys NewCrypto constructs.) -/
def encryptBytes (ctx : CryptoCtx) (bc : BlockCipher) (rnd pt : List Nat) : List Nat :=
  List.flatten (cbcEnc bc (ctx.aesKey.take 16)
    (toBlocks (pkcs7Pad (rnd ++ be32Write pt.length ++ pt ++ ctx.corpID))))

/-- cryptoImpl.Encrypt's full output, the base64 text. -/
def encryptStr (ctx : CryptoCtx) (bc : BlockCipher) (rnd pt : List Nat) : List Nat :=
  b64Encode (encryptBytes ctx bc rnd pt)

/-! ### Supporting lemmas for the round trip -/

theorem xorBytes_length (a b : List Nat) : (xorBytes a b).length = min a.length b.length := by
  simp [xorBytes]

theorem xorBytes_bytes : ∀ {a b : List Nat}, isBytes a → isBytes b →
    isBytes (xorBytes a b) := by
  intro a
  induction a with
  | nil => intro b _ _ x hx; simp [xorBytes] at hx
  | cons u us ih =>
    intro b ha hb
    cases b with
    | nil => intro x hx; simp [xorBytes] at hx
    | cons v vs =>
      intro x hx
      simp only [xorBytes, List.zipWith_cons_cons, List.mem_cons] at hx
      rcases hx with rfl | hx
      · have h1 : u < 256 := ha u (by simp)
        have h2 : v < 256 := hb v (by simp)
        have h8 : (256 : Nat) = 2 ^ 8 := by norm_num
        rw [h8] at h1 h2 ⊢
        exact Nat.xor_lt_two_pow h1 h2
      · exact ih (fun y hy => ha y (by simp [hy])) (fun y hy => hb y (by simp [hy])) x hx

theorem xorBytes_cancel : ∀ {a b : List Nat}, a.length = b.length →
    xorBytes a (xorBytes a b) = b := by
  intro a
  induction a with
  | nil =>
    intro b h
    have : b = [] := List.length_eq_zero.mp h.symm
    subst this; rfl
  | cons x xs ih =>
    intro b h
    cases b with
    | nil => simp at h
    | cons y ys =>
      simp only [xorBytes, List.zipWith_cons_cons] at *
      rw [Nat.xor_cancel_left]
      have : List.zipWith (fun x y => x ^^^ y) xs (List.zipWith (fun x y => x ^^^ y) xs ys) = ys :=
        ih (by simpa using h)
      rw [this]

theorem cbcDec_cbcEnc {bc : BlockCipher} (hbc : GoodCipher bc) :
    ∀ (blocks : List (List Nat)) (prev : List Nat), prev.length = 16 → isBytes prev →
      (∀ b ∈ blocks, b.length = 16 ∧ isBytes b) →
      cbcDec bc prev (cbcEnc bc prev blocks) = blocks := by
  intro blocks
  induction blocks with
  | nil => intro prev _ _ _; rfl
  | cons b bs ih =>
    intro prev hp hpB hall
    have hb := (hall b (by simp)).1
    have hbB := (hall b (by simp)).2
    have hxlen : (xorBytes prev b).length = 16 := by
      rw [xorBytes_length, hp, hb]; simp
    have hxB : isBytes (xorBytes prev b) := xorBytes_bytes hpB hbB
    obtain ⟨hclen, hcB, hinv⟩ := hbc (xorBytes prev b) hxlen hxB
    simp only [cbcEnc, cbcDec]
    rw [hinv, xorBytes_cancel (by rw [hp, hb])]
    rw [ih (bc.encB (xorBytes prev b)) hclen hcB (fun x hx => hall x (by simp [hx]))]

theorem cbcEnc_blocks {bc : BlockCipher} (hbc : GoodCipher bc) :
    ∀ (blocks : List (List Nat)) (prev : List Nat), prev.length = 16 → isBytes prev →
      (∀ b ∈ blocks, b.length = 16 ∧ isBytes b) →
      ∀ c ∈ cbcEnc bc prev blocks, c.length = 16 ∧ isBytes c := by
  intro blocks
  induction blocks with
  | nil => intro prev _ _ _ c hc; simp [cbcEnc] at hc
  | cons b bs ih =>
    intro prev hp hpB hall c hc
    have hb := (hall b (by simp)).1
    have hbB := (hall b (by simp)).2
    have hxlen : (xorBytes prev b).length = 16 := by
      rw [xorBytes_length, hp, hb]; simp
    obtain ⟨hclen, hcB, _⟩ := hbc (xorBytes prev b) hxlen (xorBytes_bytes hpB hbB)
    simp only [cbcEnc, List.mem_cons] at hc
    rcases hc with rfl | hc
    · exact ⟨hclen, hcB⟩
    · exact ih (bc.encB (xorBytes prev b)) hclen hcB (fun x hx => hall x (by simp [hx])) c hc

theorem cbcEnc_length (bc : BlockCipher) :
    ∀ (blocks : List (List Nat)) (prev : List Nat),
      (cbcEnc bc prev blocks).length = blocks.length := by
  intro blocks
  induction blocks with
  | nil => intro prev; rfl
  | cons b bs ih => intro prev; simp [cbcEnc, ih]

theorem flatten_length_16 : ∀ {blocks : List (List Nat)},
    (∀ b ∈ blocks, b.length = 16) → (List.flatten blocks).length = 16 * blocks.length := by
  intro blocks
  induction blocks with
  | nil => intro _; rfl
  | cons b bs ih =>
    intro h
    simp only [List.flatten_cons, List.length_append, List.length_cons]
    rw [h b (by simp), ih (fun x hx => h x (by simp [hx]))]
    ring

theorem toBlocksAux_flatten : ∀ (blocks : List (List Nat)) (fuel : Nat),
    blocks.length ≤ fuel → (∀ b ∈ blocks, b.length = 16) →
    toBlocksAux fuel (List.flatten blocks) = blocks := by
  intro blocks
  induction blocks with
  | nil =>
    intro fuel _ _
    cases fuel <;> rfl
  | cons b bs ih =>
    intro fuel hfuel hall
    have hb : b.length = 16 := hall b (by simp)
    cases fuel with
    | zero => simp at hfuel
    | succ n =>
      have hne : b ++ List.flatten bs ≠ [] := by
        intro hcontra
        have : b = [] := List.append_eq_nil.mp hcontra |>.1
        rw [this] at hb
        simp at hb
      simp only [List.flatten_cons]
      cases hbl : b ++ List.flatten bs with
      | nil => exact absurd hbl hne
      | cons x xs =>
        have heq : toBlocksAux (n + 1) (x :: xs) =
            (x :: xs).take 16 :: toBlocksAux n ((x :: xs).drop 16) := rfl
        rw [heq, ← hbl, List.take_left' hb, List.drop_left' hb]
        rw [ih n (by simpa using hfuel) (fun y hy => hall y (by simp [hy]))]

theorem toBlocks_flatten {blocks : List (List Nat)} (hall : ∀ b ∈ blocks, b.length = 16) :
    toBlocks (List.flatten blocks) = blocks := by
  unfold toBlocks
  apply toBlocksAux_flatten blocks _ _ hall
  rw [flatten_length_16 hall]
  omega

theorem toBlocksAux_join_self : ∀ (fuel : Nat) (l : List Nat), l.length ≤ fuel →
    List.flatten (toBlocksAux fuel l) = l := by
  intro fuel
  induction fuel with
  | zero =>
    intro l hl
    have : l = [] := List.length_eq_zero.mp (Nat.le_zero.mp hl)
    subst this; rfl
  | succ n ih =>
    intro l hl
    cases l with
    | nil => rfl
    | cons x xs =>
      show List.flatten ((x :: xs).take 16 :: toBlocksAux n ((x :: xs).drop 16)) = x :: xs
      simp only [List.flatten_cons]
      rw [ih ((x :: xs).drop 16) (by simp at hl ⊢; omega)]
      exact List.take_append_drop 16 (x :: xs)

theorem toBlocks_flatten_self (l : List Nat) : (toBlocks l).flatten = l :=
  toBlocksAux_join_self l.length l le_rfl

theorem toBlocks_blocks : ∀ (fuel : Nat) (l : List Nat), l.length ≤ fuel →
    l.length % 16 = 0 → isBytes l →
    ∀ b ∈ toBlocksAux fuel l, b.length = 16 ∧ isBytes b := by
  intro fuel
  induction fuel with
  | zero => intro l hl _ _ b hb; simp [toBlocksAux] at hb
  | succ n ih =>
    intro l hl hmod hB b hb
    cases l with
    | nil => simp [toBlocksAux] at hb
    | cons x xs =>
      have hlen : (x :: xs).length ≥ 16 := by
        by_contra hc
        push_neg at hc
        have h0 : (x :: xs).length % 16 = (x :: xs).length := Nat.mod_eq_of_lt hc
        rw [hmod] at h0
        simp at h0
      rw [show toBlocksAux (n + 1) (x :: xs) =
            (x :: xs).take 16 :: toBlocksAux n ((x :: xs).drop 16) from rfl] at hb
      rcases List.mem_cons.mp hb with rfl | hb2
      · constructor
        · rw [List.length_take]
          omega
        · intro y hy
          exact hB y (List.mem_of_mem_take hy)
      · refine ih ((x :: xs).drop 16) ?_ ?_ ?_ b hb2
        · rw [List.length_drop]
          simp at hl ⊢
          omega
        · rw [List.length_drop]
          omega
        · intro y hy
          exact hB y (List.mem_of_mem_drop hy)

theorem isBytes_flatten {blocks : List (List Nat)} (h : ∀ b ∈ blocks, isBytes b) :
    isBytes (List.flatten blocks) := by
  intro x hx
  rcases List.mem_flatten.mp hx with ⟨b, hb, hxb⟩
  exact h b hb x hxb

theorem findIdx?_ne_replicate (v : Nat) : ∀ n,
    (List.replicate n v).findIdx? (fun x => x != v) = none := by
  intro n
  induction n with
  | zero => rfl
  | succ k ih => simp [List.replicate_succ, List.findIdx?_cons, ih]

theorem unpad_pad (data : List Nat) : pkcs7Unpad (pkcs7Pad data) = .ok data := by
  have hp1 : 1 ≤ 16 - data.length % 16 := by omega
  have hp16 : 16 - data.length % 16 ≤ 16 := by omega
  set p := 16 - data.length % 16 with hp
  have hrep : List.replicate p p = List.replicate (p - 1) p ++ [p] := by
    have : p = (p - 1) + 1 := by omega
    rw [this, List.replicate_succ']
    congr 1
  have hlast : (pkcs7Pad data).getLast? = some p := by
    unfold pkcs7Pad
    rw [← hp, hrep, ← List.append_assoc, List.getLast?_concat]
  have hlen : (pkcs7Pad data).length = data.length + p := by
    simp [pkcs7Pad, ← hp]
  have hdropped : (pkcs7Pad data).drop ((pkcs7Pad data).length - p) = List.replicate p p := by
    unfold pkcs7Pad
    rw [← hp]
    have : (data ++ List.replicate p p).length - p = data.length := by
      simp
    rw [this, List.drop_left' rfl]
  have htake : (pkcs7Pad data).take ((pkcs7Pad data).length - p) = data := by
    unfold pkcs7Pad
    rw [← hp]
    have : (data ++ List.replicate p p).length - p = data.length := by
      simp
    rw [this, List.take_left' rfl]
  simp only [pkcs7Unpad, hlast]
  rw [if_neg (show ¬(p = 0 ∨ 16 < p) by omega)]
  rw [if_neg (show ¬((pkcs7Pad data).length < p) by omega)]
  rw [hdropped, findIdx?_ne_replicate, htake]

theorem pkcs7Pad_mod (data : List Nat) : (pkcs7Pad data).length % 16 = 0 := by
  simp only [pkcs7Pad, List.length_append, List.length_replicate]
  omega

theorem pkcs7Pad_bytes {data : List Nat} (h : isBytes data) : isBytes (pkcs7Pad data) := by
  intro x hx
  rcases List.mem_append.mp hx with hx | hx
  · exact h x hx
  · have := List.eq_of_mem_replicate hx
    omega

theorem be32Write_bytes (n : Nat) : isBytes (be32Write n) := by
  intro x hx
  simp only [be32Write, List.mem_cons, List.not_mem_nil, or_false] at hx
  rcases hx with rfl | rfl | rfl | rfl <;> omega

theorem be32_roundtrip {n : Nat} (h : n < 4294967296) : be32Read (be32Write n) = n := by
  simp only [be32Read, be32Write]
  omega

theorem parsePlain_structured (corp rnd pt : List Nat)
    (hrnd : rnd.length = 16) (hlen : 20 + pt.length + corp.length < 4294967296) :
    parsePlain corp (rnd ++ be32Write pt.length ++ pt ++ corp) = .ok pt := by
  set l := rnd ++ be32Write pt.length ++ pt ++ corp with hl
  have hllen : l.length = 20 + pt.length + corp.length := by
    simp [hl, be32Write]
    omega
  have hdrop16 : (l.drop 16).take 4 = be32Write pt.length := by
    rw [hl]
    rw [List.append_assoc (rnd ++ be32Write pt.length) pt corp]
    rw [List.append_assoc rnd (be32Write pt.length) (pt ++ corp)]
    rw [List.drop_left' hrnd]
    exact List.take_left' rfl
  have hmsg : (l.drop 20).take (20 + pt.length - 20) = pt := by
    rw [hl]
    rw [List.append_assoc (rnd ++ be32Write pt.length) pt corp]
    rw [List.drop_left' (by simp [hrnd, be32Write])]
    have : 20 + pt.length - 20 = pt.length := by omega
    rw [this]
    exact List.take_left' rfl
  have hgot : l.drop (20 + pt.length) = corp := by
    rw [hl]
    exact List.drop_left' (by simp [hrnd, be32Write]; omega)
  unfold parsePlain
  rw [if_neg (by omega)]
  rw [hdrop16, be32_roundtrip (by omega)]
  rw [if_neg (by rw [hllen]; omega)]
  have hhi : (20 + pt.length) % 4294967296 = 20 + pt.length := Nat.mod_eq_of_lt (by omega)
  rw [hhi]
  rw [if_neg (by rw [hllen]; omega)]
  rw [hmsg, hgot, if_pos rfl]

/-! ### C1: encrypt/decrypt round trip -/

/-- C1.  Round trip: for every plaintext byte string (of wire-format
size, below 2^32 together with the tenant ID), every 32-byte key, every
tenant ID, and every choice of the 16 random prefix bytes, Decrypt of
Encrypt succeeds and returns exactly the plaintext.  The block cipher is
any permutation of 16-byte blocks, as crypto/aes supplies. -/
theorem c1_round_trip (ctx : CryptoCtx) (bc : BlockCipher) (rnd pt : List Nat)
    (hbc : GoodCipher bc)
    (hkey : ctx.aesKey.length = 32) (hkeyB : isBytes ctx.aesKey)
    (hrnd : rnd.length = 16) (hrndB : isBytes rnd)
    (hptB : isBytes pt) (hcorpB : isBytes ctx.corpID)
    (hlen : 20 + pt.length + ctx.corpID.length < 4294967296) :
    decryptStr ctx bc (encryptStr ctx bc rnd pt) = .ok pt := by
  set body := rnd ++ be32Write pt.length ++ pt ++ ctx.corpID with hbody
  set padded := pkcs7Pad body with hpadded
  have hbodyB : isBytes body := by
    intro x hx
    rcases List.mem_append.mp hx with hx | hx
    · rcases List.mem_append.mp hx with hx | hx
      · rcases List.mem_append.mp hx with hx | hx
        · exact hrndB x hx
        · exact be32Write_bytes pt.length x hx
      · exact hptB x hx
    · exact hcorpB x hx
  have hpadB : isBytes padded := pkcs7Pad_bytes hbodyB
  have hpadMod : padded.length % 16 = 0 := pkcs7Pad_mod body
  have hpadLen : 21 ≤ padded.length := by
    simp only [hpadded, pkcs7Pad, List.length_append, List.length_replicate]
    have : 20 ≤ body.length := by
      simp [hbody, be32Write]
      omega
    omega
  have hblocks : ∀ b ∈ toBlocks padded, b.length = 16 ∧ isBytes b :=
    toBlocks_blocks padded.length padded le_rfl hpadMod hpadB
  have hiv : (ctx.aesKey.take 16).length = 16 := by
    rw [List.length_take]
    omega
  have hivB : isBytes (ctx.aesKey.take 16) := fun x hx => hkeyB x (List.mem_of_mem_take hx)
  have hcbcB : ∀ c ∈ cbcEnc bc (ctx.aesKey.take 16) (toBlocks padded), c.length = 16 ∧ isBytes c :=
    cbcEnc_blocks hbc (toBlocks padded) _ hiv hivB hblocks
  have hctB : isBytes (encryptBytes ctx bc rnd pt) :=
    isBytes_flatten (fun b hb => (hcbcB b hb).2)
  have hctLen : (encryptBytes ctx bc rnd pt).length = padded.length := by
    unfold encryptBytes
    rw [flatten_length_16 (fun b hb => (hcbcB b hb).1)]
    rw [cbcEnc_length]
    have h1 : List.flatten (toBlocks padded) = padded :=
      toBlocksAux_join_self padded.length padded le_rfl
    have h2 : (List.flatten (toBlocks padded)).length = 16 * (toBlocks padded).length :=
      flatten_length_16 (fun b hb => (hblocks b hb).1)
    rw [h1] at h2
    omega
  unfold encryptStr decryptStr
  rw [b64_roundtrip (encryptBytes ctx bc rnd pt).length _ le_rfl hctB]
  show decryptBytes ctx bc (encryptBytes ctx bc rnd pt) = DResult.ok pt
  unfold decryptBytes
  rw [if_neg (by rw [hctLen]; omega)]
  rw [if_neg (by omega)]
  have hblocksEq : toBlocks (encryptBytes ctx bc rnd pt) =
      cbcEnc bc (ctx.aesKey.take 16) (toBlocks padded) := by
    unfold encryptBytes
    exact toBlocks_flatten (fun b hb => (hcbcB b hb).1)
  rw [hblocksEq]
  rw [cbcDec_cbcEnc hbc (toBlocks padded) _ hiv hivB hblocks]
  rw [toBlocks_flatten_self padded]
  rw [hpadded, unpad_pad]
  exact parsePlain_structured ctx.corpID rnd pt hrnd hlen

/-! ### Service and handler layer

serviceImpl and CallbackHandler from the source.  The two XML parsers
(encoding/xml on the envelope and on the decrypted message) are Go
standard library and enter as function parameters whose error value is
the rendered message the library would produce. -/

/-- The URL query parameters of a callback request. -/
structure CallbackQuery where
  msgSignature : List Nat
  timestamp : List Nat
  nonce : List Nat
  echostr : List Nat

/-- The encrypted XML envelope of a POST callback. -/
structure EncryptedBody where
  toUserName : List Nat
  agentID : List Nat
  encryptField : List Nat

/-- The decrypted message fields. -/
structure WwMessage where
  toUserName : List Nat
  fromUserName : List Nat
  createTime : Int
  msgType : List Nat
  content : List Nat
  msgID : List Nat
  agentID : Int

/-- The request shape handed to the AI collaborator (ai.ChatRequest).
A Go struct literal leaves GroupID at its zero value, the empty
string. -/
structure ChatRequest where
  userID : List Nat
  content : List Nat
  source : List Nat
  groupID : List Nat
deriving DecidableEq

/-- forwardToAI's request construction from the decrypted message. -/
def mkChatRequest (msg : WwMessage) : ChatRequest :=
  { userID := msg.fromUserName, content := msg.content, source := ascii "wework", groupID := [] }

/-- containsMention from the source: strings.Contains(content, "@"). -/
def containsMention (content : List Nat) : Bool := containsSeq content (ascii "@")

/-- The error returns of serviceImpl.HandleCallback, one per return. -/
inductive CbErr where
  | envParse (msg : List Nat)
  | invalidSignature
  | decryptFail (e : DecErr)
  | msgParse (msg : List Nat)
deriving DecidableEq

/-- Outcome of HandleCallback: success carrying the forward request when
one was dispatched, an error return, or a propagated panic. -/
inductive CbResult where
  | ok (fr : Option ChatRequest)
  | fail (e : CbErr)
  | panicked
deriving DecidableEq

/-- Rendered message of a pkcs7Unpad error, as fmt.Errorf builds it. -/
def renderUnpadErr : UnpadErr → List Nat
  | .empty => ascii "empty data"
  | .invalidValue p => ascii "invalid padding value: " ++ decimal p
  | .exceeds p len =>
    ascii "padding " ++ decimal p ++ ascii " exceeds data length " ++ decimal len
  | .badByte i => ascii "invalid padding byte at position " ++ decimal i

/-- Rendered message of a Decrypt error, as fmt.Errorf builds it (the
base64 corrupt-input byte offset is elided; it is digits and never
contains letters). -/
def renderDecErr : DecErr → List Nat
  | .decode => ascii "base64 decode: illegal base64 data"
  | .alignment n =>
    ascii "ciphertext length " ++ decimal n ++ ascii " is not a multiple of block size 16"
  | .cipherInit n => ascii "new aes cipher: crypto/aes: invalid key size " ++ decimal n
  | .padding e => ascii "pkcs7 unpad: " ++ renderUnpadErr e
  | .tooShort n => ascii "plaintext too short: " ++ decimal n ++ ascii " bytes"
  | .lengthMismatch l n =>
    ascii "invalid msg length: " ++ decimal l ++ ascii ", plaintext length: " ++ decimal n
  | .corpMismatch got want => ascii "corp_id mismatch: got " ++ got ++ ascii ", want " ++ want

/-- Rendered message of a HandleCallback error, with the fmt.Errorf
wrapping prefixes of the source. -/
def renderCbErr : CbErr → List Nat
  | .envParse m => ascii "unmarshal encrypted body: " ++ m
  | .invalidSignature => ascii "invalid signature"
  | .decryptFail e => ascii "decrypt message: " ++ renderDecErr e
  | .msgParse m => ascii "unmarshal message: " ++ m

/-- serviceImpl.HandleCallback: parse the envelope, verify the
signature over its Encrypt field, decrypt, parse the message, and
dispatch to the AI collaborator only for a text message whose content
contains the mention character. -/
def handleCallbackService (h : List Nat → List Nat)
    (parseEnv : List Nat → Except (List Nat) EncryptedBody)
    (parseMsg : List Nat → Except (List Nat) WwMessage)
    (ctx : CryptoCtx) (bc : BlockCipher) (q : CallbackQuery) (body : List Nat) : CbResult :=
  match parseEnv body with
  | .error e => .fail (.envParse e)
  | .ok env =>
    if verifySignature h ctx.token q.msgSignature q.timestamp q.nonce env.encryptField then
      match decryptStr ctx bc env.encryptField with
      | .panicked => .panicked
      | .fail e => .fail (.decryptFail e)
      | .ok plaintext =>
        match parseMsg plaintext with
        | .error e => .fail (.msgParse e)
        | .ok msg =>
          if msg.msgType = ascii "text" then
            if containsMention msg.content then .ok (some (mkChatRequest msg))
            else .ok none
          else .ok none
    else .fail .invalidSignature

/-- CallbackHandler.handleCallback's HTTP status and body for each
service outcome.  The handler first tests whether the rendered error
contains "unmarshal" (400), then whether it is the ErrInvalidSignature
sentinel (403), and otherwise answers 500; success answers 200
"success".  A panic produces no response (none). -/
def statusOfCallback (r : CbResult) : Option (Nat × List Nat) :=
  match r with
  | .ok _ => some (200, ascii "success")
  | .panicked => none
  | .fail e =>
    if containsSeq (renderCbErr e) (ascii "unmarshal") then some (400, ascii "bad request")
    else if e = .invalidSignature then some (403, ascii "forbidden")
    else some (500, ascii "internal server error")

/-- The error returns of serviceImpl.VerifyURL. -/
inductive VErr where
  | invalidSignature
  | decryptFail (e : DecErr)
deriving DecidableEq

/-- Outcome of VerifyURL. -/
inductive VResult where
  | ok (plain : List Nat)
  | fail (e : VErr)
  | panicked
deriving DecidableEq

/-- serviceImpl.VerifyURL: verify the signature over the echostr, and
only then decrypt the echostr. -/
def verifyURLService (h : List Nat → List Nat) (ctx : CryptoCtx) (bc : BlockCipher)
    (q : CallbackQuery) : VResult :=
  if verifySignature h ctx.token q.msgSignature q.timestamp q.nonce q.echostr then
    match decryptStr ctx bc q.echostr with
    | .ok p => .ok p
    | .fail e => .fail (.decryptFail e)
    | .panicked => .panicked
  else .fail .invalidSignature

/-- CallbackHandler.handleVerifyURL's HTTP status and body for each
service outcome: 200 with the decrypted plaintext, 403 for the
signature sentinel, 500 for any other error; a panic produces no
response. -/
def statusOfVerify (r : VResult) : Option (Nat × List Nat) :=
  match r with
  | .ok p => some (200, p)
  | .fail .invalidSignature => some (403, ascii "forbidden")
  | .fail (.decryptFail _) => some (500, ascii "internal server error")
  | .panicked => none

/-- The identity block permutation, the simplest cipher instance used to
evaluate the model on concrete inputs. -/
def idCipher : BlockCipher := ⟨fun b => b, fun b => b⟩

theorem goodCipher_id : GoodCipher idCipher := fun _ h1 h2 => ⟨h1, h2, rfl⟩

/-! ### C4: signature verification -/

/-- C4.  VerifySignature returns true iff the signature equals the
lowercase hexadecimal rendering of the hash of the concatenation of the
four strings in ascending lexicographic byte order (the sorted list is
a permutation of the inputs, sorted under the byte order); the rendering
uses only the bytes 0-9 and a-f, so any signature containing an
uppercase A-F is rejected; the function is pure, hence deterministic
with no side effects. -/
theorem c4_signature_exact (h : List Nat → List Nat) (token sig ts nonce enc : List Nat) :
    (verifySignature h token sig ts nonce enc = true ↔
      sig = hexLower (h (List.flatten (sortStrings [token, ts, nonce, enc]))))
    ∧ List.Sorted strLe (sortStrings [token, ts, nonce, enc])
    ∧ List.Perm (sortStrings [token, ts, nonce, enc]) [token, ts, nonce, enc]
    ∧ (∀ c ∈ hexLower (h (List.flatten (sortStrings [token, ts, nonce, enc]))),
        (48 ≤ c ∧ c ≤ 57) ∨ (97 ≤ c ∧ c ≤ 102))
    ∧ (∀ sig2 : List Nat, (∃ c ∈ sig2, 65 ≤ c ∧ c ≤ 70) →
        verifySignature h token sig2 ts nonce enc = false) := by
  have hdigits : ∀ c ∈ hexLower (h (List.flatten (sortStrings [token, ts, nonce, enc]))),
      (48 ≤ c ∧ c ≤ 57) ∨ (97 ≤ c ∧ c ≤ 102) := by
    intro c hc
    simp only [hexLower, List.mem_flatMap, List.mem_cons, List.not_mem_nil, or_false] at hc
    obtain ⟨b, _, hc⟩ := hc
    have h1 : b % 256 / 16 < 16 := by omega
    have h2 : b % 16 < 16 := by omega
    rcases hc with rfl | rfl
    · unfold hexDigit; split <;> omega
    · unfold hexDigit; split <;> omega
  have hiff : verifySignature h token sig ts nonce enc = true ↔
      sig = hexLower (h (List.flatten (sortStrings [token, ts, nonce, enc]))) := by
    unfold verifySignature
    rw [beq_iff_eq]
    exact eq_comm
  refine ⟨hiff, List.sorted_insertionSort strLe _, List.perm_insertionSort strLe _, hdigits, ?_⟩
  intro sig2 hupper
  obtain ⟨c, hcmem, hc1, hc2⟩ := hupper
  cases hv : verifySignature h token sig2 ts nonce enc
  · rfl
  · exfalso
    have heq : sig2 = hexLower (h (List.flatten (sortStrings [token, ts, nonce, enc]))) := by
      unfold verifySignature at hv
      exact (beq_iff_eq.mp hv).symm
    rw [heq] at hcmem
    rcases hdigits c hcmem with ⟨h3, h4⟩ | ⟨h3, h4⟩ <;> omega

/-- Closed instance of C4: a constant stand-in hash, whose 40-zero hex
rendering matches the all-'0' signature. -/
theorem c4_signature_exact_witness :
    verifySignature (fun _ => List.replicate 20 0) (ascii "token")
      (List.replicate 40 48) (ascii "1000") (ascii "nonce") (ascii "enc") = true :=
  (c4_signature_exact (fun _ => List.replicate 20 0) (ascii "token")
    (List.replicate 40 48) (ascii "1000") (ascii "nonce") (ascii "enc")).1.mpr (by decide)

/-! ### C6: padding validation -/

theorem findIdx?_ne_none_iff (v : Nat) : ∀ (l : List Nat),
    l.findIdx? (fun x => x != v) = none ↔ ∀ x ∈ l, x = v := by
  intro l
  induction l with
  | nil => simp
  | cons a as ih =>
    rw [List.findIdx?_cons]
    by_cases ha : a = v
    · subst ha
      simp [ih]
    · simp only [bne_iff_ne, ne_eq, ha, not_false_eq_true, if_pos, List.mem_cons]
      constructor
      · intro hcontra; exact absurd hcontra (by simp)
      · intro hall; exact absurd (hall a (Or.inl rfl)) ha

/-- C6.  pkcs7Unpad rejects a buffer whose last byte p is 0, above 16,
or above the buffer length, or whose last p bytes are not all p; in
every other case it removes exactly p bytes. -/
theorem c6_padding_validation (data : List Nat) (p : Nat) (hp : data.getLast? = some p) :
    ((p = 0 ∨ 16 < p ∨ data.length < p ∨ ∃ x ∈ data.drop (data.length - p), x ≠ p) →
      ∃ e, pkcs7Unpad data = .error e)
    ∧ (p ≠ 0 → p ≤ 16 → p ≤ data.length →
      (∀ x ∈ data.drop (data.length - p), x = p) →
      pkcs7Unpad data = .ok (data.take (data.length - p)) ∧
        (data.take (data.length - p)).length = data.length - p) := by
  constructor
  · intro hbad
    simp only [pkcs7Unpad, hp]
    by_cases h1 : p = 0 ∨ 16 < p
    · rw [if_pos h1]; exact ⟨_, rfl⟩
    · rw [if_neg h1]
      by_cases h2 : data.length < p
      · rw [if_pos h2]; exact ⟨_, rfl⟩
      · rw [if_neg h2]
        have hex : ∃ x ∈ data.drop (data.length - p), x ≠ p := by
          rcases hbad with h | h | h | h
          · exact absurd (Or.inl h) h1
          · exact absurd (Or.inr h) h1
          · exact absurd h h2
          · exact h
        obtain ⟨x, hx, hxp⟩ := hex
        cases hfi : (data.drop (data.length - p)).findIdx? (fun y => y != p) with
        | some j => exact ⟨_, rfl⟩
        | none =>
          exact absurd ((findIdx?_ne_none_iff p _).mp hfi x hx) hxp
  · intro h0 h16 hlenp hall
    simp only [pkcs7Unpad, hp]
    rw [if_neg (by omega), if_neg (by omega)]
    rw [(findIdx?_ne_none_iff p _).mpr hall]
    exact ⟨rfl, by rw [List.length_take]; omega⟩

/-- Closed instance of C6: the buffer [7, 2, 2] unpads to [7]. -/
theorem c6_padding_validation_witness :
    pkcs7Unpad [7, 2, 2] = .ok [7] ∧ [7] = List.take 1 [7, 2, 2] :=
  ⟨((c6_padding_validation [7, 2, 2] 2 (by decide)).2 (by decide) (by decide)
      (by decide) (by decide)).1, by decide⟩

/-! ### C7: handshake signature gate -/

/-- C7.  When the signature over a GET verification query does not
verify, VerifyURL answers the invalid-signature sentinel for every
block cipher (so the echostr is never decrypted: the outcome does not
depend on the cipher at all) and the handler answers 403; conversely,
any outcome other than the sentinel means the signature check passed
first. -/
theorem c7_handshake_gate (h : List Nat → List Nat) (ctx : CryptoCtx) (bc : BlockCipher)
    (q : CallbackQuery)
    (hsig : verifySignature h ctx.token q.msgSignature q.timestamp q.nonce q.echostr = false) :
    (∀ bc2 : BlockCipher, verifyURLService h ctx bc2 q = .fail .invalidSignature)
    ∧ statusOfVerify (verifyURLService h ctx bc q) = some (403, ascii "forbidden")
    ∧ (∀ (q2 : CallbackQuery) (bc2 : BlockCipher),
        verifyURLService h ctx bc2 q2 ≠ .fail .invalidSignature →
        verifySignature h ctx.token q2.msgSignature q2.timestamp q2.nonce q2.echostr = true) := by
  refine ⟨?_, ?_, ?_⟩
  · intro bc2
    simp [verifyURLService, hsig]
  · simp [verifyURLService, hsig, statusOfVerify]
  · intro q2 bc2 hne
    cases hv : verifySignature h ctx.token q2.msgSignature q2.timestamp q2.nonce q2.echostr
    · exfalso
      apply hne
      simp [verifyURLService, hv]
    · rfl

/-- Closed instance of C7: a wrong signature makes VerifyURL answer the
sentinel and the handler answer 403. -/
theorem c7_handshake_gate_witness :
    verifyURLService (fun _ => List.replicate 20 0) ⟨ascii "token", List.replicate 32 0, ascii "x"⟩
        idCipher ⟨ascii "bad", ascii "1", ascii "2", ascii "e"⟩ = .fail .invalidSignature
    ∧ statusOfVerify (verifyURLService (fun _ => List.replicate 20 0)
        ⟨ascii "token", List.replicate 32 0, ascii "x"⟩ idCipher
        ⟨ascii "bad", ascii "1", ascii "2", ascii "e"⟩) = some (403, ascii "forbidden") :=
  ⟨(c7_handshake_gate (fun _ => List.replicate 20 0)
      ⟨ascii "token", List.replicate 32 0, ascii "x"⟩ idCipher
      ⟨ascii "bad", ascii "1", ascii "2", ascii "e"⟩ (by decide)).1 idCipher,
   (c7_handshake_gate (fun _ => List.replicate 20 0)
      ⟨ascii "token", List.replicate 32 0, ascii "x"⟩ idCipher
      ⟨ascii "bad", ascii "1", ascii "2", ascii "e"⟩ (by decide)).2.1⟩

/-! ### C9: ignored-message branch -/

/-- C9.  A POST callback that parses, verifies and decrypts, whose
message is not of type text or whose content has no '@', answers 200
"success" with no forward dispatched; a forward is dispatched only for a
text message whose content contains '@'. -/
theorem c9_ignored_branch (h : List Nat → List Nat)
    (parseEnv : List Nat → Except (List Nat) EncryptedBody)
    (parseMsg : List Nat → Except (List Nat) WwMessage)
    (ctx : CryptoCtx) (bc : BlockCipher) (q : CallbackQuery) (body : List Nat)
    (env : EncryptedBody) (pt : List Nat) (msg : WwMessage)
    (henv : parseEnv body = .ok env)
    (hsig : verifySignature h ctx.token q.msgSignature q.timestamp q.nonce env.encryptField = true)
    (hdec : decryptStr ctx bc env.encryptField = .ok pt)
    (hmsg : parseMsg pt = .ok msg) :
    ((msg.msgType ≠ ascii "text" ∨ containsMention msg.content = false) →
      handleCallbackService h parseEnv parseMsg ctx bc q body = .ok none
      ∧ statusOfCallback (handleCallbackService h parseEnv parseMsg ctx bc q body) =
          some (200, ascii "success"))
    ∧ (∀ fr, handleCallbackService h parseEnv parseMsg ctx bc q body = .ok (some fr) →
        msg.msgType = ascii "text" ∧ containsMention msg.content = true) := by
  have hrun : handleCallbackService h parseEnv parseMsg ctx bc q body =
      (if msg.msgType = ascii "text" then
        if containsMention msg.content then CbResult.ok (some (mkChatRequest msg))
        else CbResult.ok none
      else CbResult.ok none) := by
    unfold handleCallbackService
    rw [henv]
    simp only [hsig, if_true, hdec, hmsg]
  constructor
  · intro hignore
    have hok : handleCallbackService h parseEnv parseMsg ctx bc q body = .ok none := by
      rw [hrun]
      rcases hignore with hty | hat
      · rw [if_neg hty]
      · by_cases hty : msg.msgType = ascii "text"
        · rw [if_pos hty, hat]
          simp
        · rw [if_neg hty]
    rw [hok]
    exact ⟨rfl, rfl⟩
  · intro fr hfr
    rw [hrun] at hfr
    by_cases hty : msg.msgType = ascii "text"
    · rw [if_pos hty] at hfr
      cases hat : containsMention msg.content
      · rw [hat] at hfr
        simp at hfr
      · exact ⟨hty, rfl⟩
    · rw [if_neg hty] at hfr
      simp at hfr

/-- A constant stand-in hash and the signature its hex rendering always
equals, used by the concrete instances below. -/
def hashZero : List Nat → List Nat := fun _ => List.replicate 20 0

/-- The 40-character signature hashZero always produces. -/
def sigZero : List Nat := List.replicate 40 48

/-- A concrete key context for the instances: 32-zero-byte key. -/
def ctxW : CryptoCtx := ⟨ascii "token", List.replicate 32 0, ascii "x"⟩

/-- A concrete well-formed ciphertext of the empty message under ctxW
and the identity cipher. -/
def ctW9 : List Nat := encryptStr ctxW idCipher (List.replicate 16 0) []

/-- Closed instance of C9: a text message "hello" with no '@' answers
200 "success" and dispatches no forward. -/
theorem c9_ignored_branch_witness :
    handleCallbackService hashZero
        (fun _ => .ok ⟨[], [], ctW9⟩)
        (fun _ => .ok ⟨[], ascii "alice", 0, ascii "text", ascii "hello", [], 0⟩)
        ctxW idCipher ⟨sigZero, ascii "1", ascii "2", []⟩ [] = .ok none :=
  ((c9_ignored_branch hashZero
      (fun _ => .ok ⟨[], [], ctW9⟩)
      (fun _ => .ok ⟨[], ascii "alice", 0, ascii "text", ascii "hello", [], 0⟩)
      ctxW idCipher ⟨sigZero, ascii "1", ascii "2", []⟩ []
      ⟨[], [], ctW9⟩ [] ⟨[], ascii "alice", 0, ascii "text", ascii "hello", [], 0⟩
      rfl (by decide) (by decide) rfl).1 (Or.inr (by decide))).1

/-! ### C10: forward request fields -/

/-- C10.  Every forward request the callback flow dispatches has Source
exactly "wework", UserID the decrypted message's sender, Content the
message's content unchanged, and GroupID empty: forwardToAI's struct
literal never populates the optional group identifier. -/
theorem c10_forward_fields (h : List Nat → List Nat)
    (parseEnv : List Nat → Except (List Nat) EncryptedBody)
    (parseMsg : List Nat → Except (List Nat) WwMessage)
    (ctx : CryptoCtx) (bc : BlockCipher) (q : CallbackQuery) (body : List Nat)
    (env : EncryptedBody) (pt : List Nat) (msg : WwMessage) (fr : ChatRequest)
    (henv : parseEnv body = .ok env)
    (hsig : verifySignature h ctx.token q.msgSignature q.timestamp q.nonce env.encryptField = true)
    (hdec : decryptStr ctx bc env.encryptField = .ok pt)
    (hmsg : parseMsg pt = .ok msg)
    (hfr : handleCallbackService h parseEnv parseMsg ctx bc q body = .ok (some fr)) :
    fr.userID = msg.fromUserName ∧ fr.content = msg.content
    ∧ fr.source = ascii "wework" ∧ fr.groupID = [] := by
  have hrun : handleCallbackService h parseEnv parseMsg ctx bc q body =
      (if msg.msgType = ascii "text" then
        if containsMention msg.content then CbResult.ok (some (mkChatRequest msg))
        else CbResult.ok none
      else CbResult.ok none) := by
    unfold handleCallbackService
    rw [henv]
    simp only [hsig, if_true, hdec, hmsg]
  rw [hrun] at hfr
  by_cases hty : msg.msgType = ascii "text"
  · rw [if_pos hty] at hfr
    cases hat : containsMention msg.content
    · rw [hat] at hfr
      simp at hfr
    · rw [hat] at hfr
      simp only [if_true] at hfr
      have : fr = mkChatRequest msg := by
        cases hfr
        rfl
      subst this
      exact ⟨rfl, rfl, rfl, rfl⟩
  · rw [if_neg hty] at hfr
    simp at hfr

/-- Closed instance of C10: a mentioned text message dispatches the
forward request with source "wework" and empty group ID. -/
theorem c10_forward_fields_witness :
    (mkChatRequest ⟨[], ascii "alice", 0, ascii "text", ascii "@ai hi", [], 0⟩).source =
        ascii "wework"
    ∧ (mkChatRequest ⟨[], ascii "alice", 0, ascii "text", ascii "@ai hi", [], 0⟩).groupID = []
    ∧ (mkChatRequest ⟨[], ascii "alice", 0, ascii "text", ascii "@ai hi", [], 0⟩).userID =
        ascii "alice" :=
  have hall := c10_forward_fields hashZero
    (fun _ => .ok ⟨[], [], ctW9⟩)
    (fun _ => .ok ⟨[], ascii "alice", 0, ascii "text", ascii "@ai hi", [], 0⟩)
    ctxW idCipher ⟨sigZero, ascii "1", ascii "2", []⟩ []
    ⟨[], [], ctW9⟩ [] ⟨[], ascii "alice", 0, ascii "text", ascii "@ai hi", [], 0⟩
    (mkChatRequest ⟨[], ascii "alice", 0, ascii "text", ascii "@ai hi", [], 0⟩)
    rfl (by decide) (by decide) rfl (by decide)
  ⟨hall.2.2.1, hall.2.2.2, hall.1⟩

/-! ### C3: length-field wraparound panic -/

/-- A ciphertext that survives padding removal with the length field
0xFFFFFFFF: sixteen random-prefix zeros, the length bytes, eleven more
zeros and a one-byte padding.  Under the zero key and the identity
cipher the CBC layer maps it to itself. -/
def ctC3 : List Nat :=
  List.replicate 16 0 ++ [255, 255, 255, 255] ++ List.replicate 11 0 ++ [1]

/-- C3, the code's divergence from it.  The claim asks that any parsed
length L with 20 + L exceeding the plaintext length yield a
length-mismatch error and that Decrypt never panic.  The code compares
in wrapping uint32 arithmetic, so L = 0xFFFFFFFF makes 20 + L wrap to
15, the check passes, and the slice plaintext[20 : 20+msgLen] panics
with low 20 above high 15.  This input reaches exactly that panic. -/
theorem c3_wraparound_panics :
    decryptStr ⟨ascii "token", List.replicate 32 0, ascii "x"⟩ idCipher (b64Encode ctC3) =
      .panicked := by decide

/-! ### C2: tamper sensitivity -/

/-- Flip bit j of byte i of a byte string. -/
def flipBit (i j : Nat) (l : List Nat) : List Nat := l.set i (l.getD i 0 ^^^ 2 ^ j)

/-- A context with tenant "c" and a valid ciphertext of the
twelve-byte message under the identity cipher. -/
def ctxC2 : CryptoCtx := ⟨ascii "token", List.replicate 32 0, ascii "c"⟩

/-- The original message of the C2 instance. -/
def msgC2 : List Nat := ascii "hello world!"

/-- Its raw ciphertext (three blocks). -/
def ctC2 : List Nat := encryptBytes ctxC2 idCipher (List.replicate 16 0) msgC2

/-- C2 fails on the code: CBC without authentication is malleable.
Flipping one bit in the first ciphertext block garbles only the
unchecked 16-byte random prefix and flips the matching bit of the next
plaintext block, here the first message byte: Decrypt accepts the
flipped ciphertext and silently returns content different from the
original message, instead of failing. -/
theorem c2_tamper_cex :
    decryptStr ctxC2 idCipher (b64Encode ctC2) = .ok msgC2
    ∧ decryptStr ctxC2 idCipher (b64Encode (flipBit 4 0 ctC2)) = .ok (flipBit 0 0 msgC2)
    ∧ flipBit 0 0 msgC2 ≠ msgC2 := by decide

/-- C2 amended.  A single-bit flip on an accepted raw ciphertext never
produces a decode, alignment or cipher-construction error: decryption
of the flipped ciphertext fails with a padding, too-short,
length-mismatch or tenant-mismatch error when it fails at all — but it
may also panic on a wrapped length field or succeed, possibly with
content different from the original, so bit-level tamper detection is
not guaranteed. -/
theorem c2_flip_outcomes (ctx : CryptoCtx) (bc : BlockCipher) (ct m : List Nat)
    (i j : Nat) (hok : decryptBytes ctx bc ct = .ok m) :
    ∀ e, decryptBytes ctx bc (flipBit i j ct) = .fail e →
      (∃ u, e = DecErr.padding u) ∨ (∃ n, e = DecErr.tooShort n) ∨
      (∃ a b, e = DecErr.lengthMismatch a b) ∨ (∃ g w, e = DecErr.corpMismatch g w) := by
  intro e he
  have hlen : (flipBit i j ct).length = ct.length := by simp [flipBit]
  unfold decryptBytes at hok he
  by_cases h1 : ct.length = 0 ∨ ct.length % 16 ≠ 0
  · rw [if_pos h1] at hok
    exact absurd hok (by simp)
  · rw [if_neg (by rw [hlen]; exact h1)] at he
    by_cases h2 : ctx.aesKey.length ≠ 32
    · rw [if_neg h1, if_pos h2] at hok
      exact absurd hok (by simp)
    · rw [if_neg h2] at he
      cases hu : pkcs7Unpad ((cbcDec bc (ctx.aesKey.take 16) (toBlocks (flipBit i j ct))).flatten)
          with
      | error u =>
        rw [hu] at he
        cases he
        exact Or.inl ⟨u, rfl⟩
      | ok plain =>
        rw [hu] at he
        change parsePlain ctx.corpID plain = DResult.fail e at he
        unfold parsePlain at he
        by_cases hp1 : plain.length < 20
        · rw [if_pos hp1] at he
          cases he
          exact Or.inr (Or.inl ⟨plain.length, rfl⟩)
        · rw [if_neg hp1] at he
          by_cases hp2 : plain.length % 4294967296 <
              (20 + be32Read ((plain.drop 16).take 4)) % 4294967296
          · rw [if_pos hp2] at he
            cases he
            exact Or.inr (Or.inr (Or.inl ⟨_, _, rfl⟩))
          · rw [if_neg hp2] at he
            by_cases hp3 : (20 + be32Read ((plain.drop 16).take 4)) % 4294967296 < 20 ∨
                plain.length < (20 + be32Read ((plain.drop 16).take 4)) % 4294967296
            · rw [if_pos hp3] at he
              exact absurd he (by simp)
            · rw [if_neg hp3] at he
              by_cases hp4 : plain.drop ((20 + be32Read ((plain.drop 16).take 4)) % 4294967296) =
                  ctx.corpID
              · rw [if_pos hp4] at he
                exact absurd he (by simp)
              · rw [if_neg hp4] at he
                cases he
                exact Or.inr (Or.inr (Or.inr ⟨_, _, rfl⟩))

/-- Closed instance of the amended C2: flipping the last padding byte of
the valid ciphertext makes decryption fail, with a padding error. -/
theorem c2_flip_outcomes_witness :
    decryptBytes ctxC2 idCipher ctC2 = .ok msgC2
    ∧ decryptBytes ctxC2 idCipher (flipBit 47 0 ctC2) =
        .fail (DecErr.padding (UnpadErr.badByte 34))
    ∧ ((∃ u, DecErr.padding (UnpadErr.badByte 34) = DecErr.padding u) ∨
       (∃ n, DecErr.padding (UnpadErr.badByte 34) = DecErr.tooShort n) ∨
       (∃ a b, DecErr.padding (UnpadErr.badByte 34) = DecErr.lengthMismatch a b) ∨
       (∃ g w, DecErr.padding (UnpadErr.badByte 34) = DecErr.corpMismatch g w)) :=
  ⟨by decide, by decide,
   c2_flip_outcomes ctxC2 idCipher ctC2 msgC2 47 0 (by decide)
     (DecErr.padding (UnpadErr.badByte 34)) (by decide)⟩

/-! ### C5: delivery-flow status mapping -/

theorem containsSeq_of_prefix_append {pre pat : List Nat} (suff : List Nat)
    (h : pat.isPrefixOf pre = true) : containsSeq (pre ++ suff) pat = true := by
  unfold containsSeq
  rw [List.any_eq_true]
  refine ⟨pre ++ suff, ?_, ?_⟩
  · rw [List.mem_tails]
  · rw [List.isPrefixOf_iff_prefix] at h ⊢
    exact h.trans (List.prefix_append pre suff)

/-- A plaintext whose trailing tenant identifier reads "unmarshal":
random zeros, a zero length field and the tenant bytes. -/
def plainC5 : List Nat := List.replicate 16 0 ++ [0, 0, 0, 0] ++ ascii "unmarshal"

/-- Its raw ciphertext under the zero key and identity cipher (the
first block is zero, so CBC with the zero IV fixes the padded text). -/
def ctC5 : List Nat := pkcs7Pad plainC5

/-- An envelope parser that yields that ciphertext, standing for the
XML body that carries it. -/
def parseEnvC5 : List Nat → Except (List Nat) EncryptedBody :=
  fun _ => .ok ⟨[], [], b64Encode ctC5⟩

/-- A message parser, never reached in the C5 instance. -/
def parseMsgC5 : List Nat → Except (List Nat) WwMessage :=
  fun _ => .error (ascii "xml syntax error")

/-- The query of the C5 instance, signed under hashZero. -/
def qC5 : CallbackQuery := ⟨sigZero, ascii "1", ascii "2", []⟩

/-- C5 fails on the code.  The handler classifies errors by searching
the rendered text for "unmarshal" before testing the signature
sentinel, and the tenant-mismatch error embeds the trailing plaintext
bytes (got %s).  Here the envelope parses and the signature verifies,
Decrypt fails with a tenant mismatch whose got-string is "unmarshal",
and the handler answers 400, not the claimed 500. -/
theorem c5_status_cex :
    handleCallbackService hashZero parseEnvC5 parseMsgC5
        ⟨ascii "token", List.replicate 32 0, ascii "corp"⟩ idCipher qC5 [] =
      .fail (.decryptFail (DecErr.corpMismatch (ascii "unmarshal") (ascii "corp")))
    ∧ statusOfCallback (handleCallbackService hashZero parseEnvC5 parseMsgC5
        ⟨ascii "token", List.replicate 32 0, ascii "corp"⟩ idCipher qC5 []) =
      some (400, ascii "bad request") := by decide

/-- C5 amended.  After an envelope parse success and a verified
signature, a decryption failure is answered with 500 unless the
rendered decryption error happens to contain the substring "unmarshal"
(possible only through the tenant-mismatch error's embedded got-bytes),
in which case the handler misclassifies it as a parse failure and
answers 400; envelope and message parse failures are answered with 400
and a signature failure with 403. -/
theorem c5_status_mapping (h : List Nat → List Nat)
    (parseEnv : List Nat → Except (List Nat) EncryptedBody)
    (parseMsg : List Nat → Except (List Nat) WwMessage)
    (ctx : CryptoCtx) (bc : BlockCipher) (q : CallbackQuery) (body : List Nat) :
    (∀ e, handleCallbackService h parseEnv parseMsg ctx bc q body = .fail (.decryptFail e) →
      statusOfCallback (handleCallbackService h parseEnv parseMsg ctx bc q body) =
        some (if containsSeq (renderCbErr (.decryptFail e)) (ascii "unmarshal") then
          (400, ascii "bad request") else (500, ascii "internal server error")))
    ∧ (∀ m, handleCallbackService h parseEnv parseMsg ctx bc q body = .fail (.envParse m) →
      statusOfCallback (handleCallbackService h parseEnv parseMsg ctx bc q body) =
        some (400, ascii "bad request"))
    ∧ (∀ m, handleCallbackService h parseEnv parseMsg ctx bc q body = .fail (.msgParse m) →
      statusOfCallback (handleCallbackService h parseEnv parseMsg ctx bc q body) =
        some (400, ascii "bad request"))
    ∧ (handleCallbackService h parseEnv parseMsg ctx bc q body = .fail .invalidSignature →
      statusOfCallback (handleCallbackService h parseEnv parseMsg ctx bc q body) =
        some (403, ascii "forbidden")) := by
  refine ⟨?_, ?_, ?_, ?_⟩
  · intro e hfail
    rw [hfail]
    cases hc : containsSeq (renderCbErr (CbErr.decryptFail e)) (ascii "unmarshal")
    · simp [statusOfCallback, hc]
    · simp [statusOfCallback, hc]
  · intro m hfail
    rw [hfail]
    have hcontains : containsSeq (renderCbErr (CbErr.envParse m)) (ascii "unmarshal") = true :=
      containsSeq_of_prefix_append m (by decide)
    simp [statusOfCallback, hcontains]
  · intro m hfail
    rw [hfail]
    have hcontains : containsSeq (renderCbErr (CbErr.msgParse m)) (ascii "unmarshal") = true :=
      containsSeq_of_prefix_append m (by decide)
    simp [statusOfCallback, hcontains]
  · intro hfail
    rw [hfail]
    have hcontains : containsSeq (renderCbErr CbErr.invalidSignature) (ascii "unmarshal") = false :=
      by decide
    simp [statusOfCallback, hcontains]

/-- Closed instance of the amended C5: a padding failure (whose text
has no "unmarshal") is answered with 500. -/
theorem c5_status_mapping_witness :
    handleCallbackService hashZero (fun _ => .ok ⟨[], [], b64Encode (List.replicate 16 0)⟩)
        parseMsgC5 ctxW idCipher qC5 [] =
      .fail (.decryptFail (DecErr.padding (UnpadErr.invalidValue 0)))
    ∧ statusOfCallback (handleCallbackService hashZero
        (fun _ => .ok ⟨[], [], b64Encode (List.replicate 16 0)⟩)
        parseMsgC5 ctxW idCipher qC5 []) = some (500, ascii "internal server error") := by
  refine ⟨by decide, ?_⟩
  have hmap := (c5_status_mapping hashZero
    (fun _ => .ok ⟨[], [], b64Encode (List.replicate 16 0)⟩)
    parseMsgC5 ctxW idCipher qC5 []).1
    (DecErr.padding (UnpadErr.invalidValue 0)) (by decide)
  rw [hmap]
  decide

/-! ### C8: plaintext in errors -/

theorem eq_of_agreeD : ∀ {l1 l2 : List Nat}, l1.length = l2.length →
    (∀ i, l1.getD i 0 = l2.getD i 0) → l1 = l2 := by
  intro l1
  induction l1 with
  | nil =>
    intro l2 h _
    exact (List.length_eq_zero.mp h.symm).symm
  | cons x xs ih =>
    intro l2 h hagree
    cases l2 with
    | nil => simp at h
    | cons y ys =>
      have h0 := hagree 0
      simp only [List.getD_cons_zero] at h0
      have htail : xs = ys := ih (by simpa using h)
        (fun i => by simpa [List.getD_cons_succ] using hagree (i + 1))
      rw [h0, htail]

theorem drop_eq_of_agreeD : ∀ (k : Nat) {l1 l2 : List Nat}, l1.length = l2.length →
    (∀ i, k ≤ i → l1.getD i 0 = l2.getD i 0) → l1.drop k = l2.drop k := by
  intro k
  induction k with
  | zero =>
    intro l1 l2 h hagree
    simpa using eq_of_agreeD h (fun i => hagree i (Nat.zero_le i))
  | succ n ih =>
    intro l1 l2 h hagree
    cases l1 with
    | nil =>
      cases l2 with
      | nil => rfl
      | cons y ys => simp at h
    | cons x xs =>
      cases l2 with
      | nil => simp at h
      | cons y ys =>
        simp only [List.drop_succ_cons]
        exact ih (by simpa using h)
          (fun i hi => by simpa [List.getD_cons_succ] using hagree (i + 1) (by omega))

theorem drop4_take_eq : ∀ (n : Nat) (l : List Nat), n + 4 ≤ l.length →
    (l.drop n).take 4 = [l.getD n 0, l.getD (n + 1) 0, l.getD (n + 2) 0, l.getD (n + 3) 0] := by
  intro n
  induction n with
  | zero =>
    intro l h
    match l, h with
    | a :: b :: c :: d :: rest, _ => simp
  | succ m ih =>
    intro l h
    cases l with
    | nil => simp at h
    | cons x xs =>
      simp only [List.drop_succ_cons, List.getD_cons_succ]
      exact ih xs (by simp at h; omega)

/-- C8 amended (noninterference of the pre-tenant stages).  Two
unpadded plaintexts of equal length that agree on the 20-byte header
and on everything from the end of the declared message body onward
produce identical failing outcomes of the parse stage — its too-short,
length-mismatch and tenant-mismatch errors never depend on the message
body — and identical panics.  (The tenant-mismatch error itself does
embed the trailing tenant bytes of the plaintext, which is what the
counterexample exhibits; the claim's stronger reading is false.) -/
theorem c8_parse_noninterference (corp p1 p2 : List Nat)
    (hlen : p1.length = p2.length) (hb1 : isBytes p1)
    (hagree : ∀ i, i < p1.length →
      (i < 20 ∨ 20 + be32Read ((p1.drop 16).take 4) ≤ i) → p1.getD i 0 = p2.getD i 0) :
    (∀ e, parsePlain corp p1 = .fail e → parsePlain corp p2 = .fail e)
    ∧ (parsePlain corp p1 = .panicked → parsePlain corp p2 = .panicked) := by
  have hagree2 : ∀ i, (i < 20 ∨ 20 + be32Read ((p1.drop 16).take 4) ≤ i) →
      p1.getD i 0 = p2.getD i 0 := by
    intro i hi
    by_cases hlt : i < p1.length
    · exact hagree i hlt hi
    · rw [List.getD_eq_default, List.getD_eq_default]
      · omega
      · omega
  by_cases h20 : p1.length < 20
  · constructor
    · intro e he
      unfold parsePlain at he ⊢
      rw [if_pos h20] at he
      rw [if_pos (by omega)]
      cases he
      rw [hlen]
    · intro he
      unfold parsePlain at he
      rw [if_pos h20] at he
      exact absurd he (by simp)
  · have h4 : 16 + 4 ≤ p1.length := by omega
    have hs1 := drop4_take_eq 16 p1 h4
    have hs2 := drop4_take_eq 16 p2 (by omega)
    have hL : be32Read ((p2.drop 16).take 4) = be32Read ((p1.drop 16).take 4) := by
      rw [hs1, hs2]
      rw [hagree2 16 (Or.inl (by omega)), hagree2 17 (Or.inl (by omega)),
        hagree2 18 (Or.inl (by omega)), hagree2 19 (Or.inl (by omega))]
    set L := be32Read ((p1.drop 16).take 4) with hLdef
    constructor
    · intro e he
      unfold parsePlain at he ⊢
      rw [if_neg h20] at he
      rw [if_neg (by omega), hL, ← hlen]
      rw [← hLdef] at he
      by_cases hp2 : p1.length % 4294967296 < (20 + L) % 4294967296
      · rw [if_pos hp2] at he ⊢
        cases he
        rfl
      · rw [if_neg hp2] at he ⊢
        by_cases hp3 : (20 + L) % 4294967296 < 20 ∨ p1.length < (20 + L) % 4294967296
        · rw [if_pos hp3] at he
          exact absurd he (by simp)
        · rw [if_neg hp3] at he ⊢
          have hnowrap : 20 + L < 4294967296 := by
            by_contra hw
            push_neg at hw
            have hle : (20 + L) % 4294967296 < 20 ∨
                p1.length < (20 + L) % 4294967296 := by
              left
              have hLb : L < 4294967296 := by
                rw [hLdef, hs1]
                have g16 := hb1 (p1.getD 16 0)
                  (by rw [List.getD_eq_getElem p1 0 (by omega)]; exact List.getElem_mem _)
                have g17 := hb1 (p1.getD (16 + 1) 0)
                  (by rw [List.getD_eq_getElem p1 0 (by omega)]; exact List.getElem_mem _)
                have g18 := hb1 (p1.getD (16 + 2) 0)
                  (by rw [List.getD_eq_getElem p1 0 (by omega)]; exact List.getElem_mem _)
                have g19 := hb1 (p1.getD (16 + 3) 0)
                  (by rw [List.getD_eq_getElem p1 0 (by omega)]; exact List.getElem_mem _)
                simp only [be32Read]
                omega
              omega
            exact hp3 hle
          have hhi : (20 + L) % 4294967296 = 20 + L := Nat.mod_eq_of_lt hnowrap
          rw [hhi] at he ⊢
          have hdrop : p2.drop (20 + L) = p1.drop (20 + L) :=
            (drop_eq_of_agreeD (20 + L) hlen
              (fun i hi => hagree2 i (Or.inr (by omega)))).symm
          rw [hdrop]
          by_cases hcorp : p1.drop (20 + L) = corp
          · rw [if_pos hcorp] at he
            exact absurd he (by simp)
          · rw [if_neg hcorp] at he ⊢
            cases he
            rfl
    · intro he
      unfold parsePlain at he ⊢
      rw [if_neg h20] at he
      rw [if_neg (by omega), hL, ← hlen]
      rw [← hLdef] at he
      by_cases hp2 : p1.length % 4294967296 < (20 + L) % 4294967296
      · rw [if_pos hp2] at he
        exact absurd he (by simp)
      · rw [if_neg hp2] at he ⊢
        by_cases hp3 : (20 + L) % 4294967296 < 20 ∨ p1.length < (20 + L) % 4294967296
        · rw [if_pos hp3]
        · rw [if_neg hp3] at he
          by_cases hcorp : p1.drop ((20 + L) % 4294967296) = corp
          · rw [if_pos hcorp] at he
            exact absurd he (by simp)
          · rw [if_neg hcorp] at he
            exact absurd he (by simp)

/-- The two C8 plaintexts after padding removal: equal except in their
trailing tenant bytes. -/
def plain8a : List Nat := List.replicate 16 0 ++ [0, 0, 0, 1] ++ [65] ++ ascii "AAAA"

/-- The second C8 plaintext, trailing tenant bytes "BBBB". -/
def plain8b : List Nat := List.replicate 16 0 ++ [0, 0, 0, 1] ++ [65] ++ ascii "BBBB"

/-- C8 fails on the code: the tenant-mismatch error message embeds the
trailing bytes of the decrypted plaintext (corp_id mismatch: got %s),
so two failing ciphertexts that differ only in decrypted plaintext
content produce different rendered errors, each revealing its
plaintext's trailing bytes as a substring. -/
theorem c8_error_leak_cex :
    decryptBytes ⟨ascii "token", List.replicate 32 0, ascii "corp"⟩ idCipher
        (pkcs7Pad plain8a) =
      .fail (DecErr.corpMismatch (ascii "AAAA") (ascii "corp"))
    ∧ decryptBytes ⟨ascii "token", List.replicate 32 0, ascii "corp"⟩ idCipher
        (pkcs7Pad plain8b) =
      .fail (DecErr.corpMismatch (ascii "BBBB") (ascii "corp"))
    ∧ renderDecErr (DecErr.corpMismatch (ascii "AAAA") (ascii "corp")) ≠
        renderDecErr (DecErr.corpMismatch (ascii "BBBB") (ascii "corp"))
    ∧ containsSeq (renderDecErr (DecErr.corpMismatch (ascii "AAAA") (ascii "corp")))
        (ascii "AAAA") = true := by decide

/-- Closed instance of the amended C8: two plaintexts differing only in
the message byte fail with the same tenant-mismatch error. -/
theorem c8_parse_noninterference_witness :
    parsePlain (ascii "corp") plain8a =
      .fail (DecErr.corpMismatch (ascii "AAAA") (ascii "corp"))
    ∧ parsePlain (ascii "corp")
        (List.replicate 16 0 ++ [0, 0, 0, 1] ++ [66] ++ ascii "AAAA") =
      .fail (DecErr.corpMismatch (ascii "AAAA") (ascii "corp")) :=
  ⟨by decide,
   (c8_parse_noninterference (ascii "corp") plain8a
      (List.replicate 16 0 ++ [0, 0, 0, 1] ++ [66] ++ ascii "AAAA")
      (by decide) (by decide) (by decide)).1
     (DecErr.corpMismatch (ascii "AAAA") (ascii "corp")) (by decide)⟩

/-! ### Witness for C1 -/

/-- Closed instance of C1: the two-byte message "hi" under the identity
cipher, the zero key and tenant "x" round-trips. -/
theorem c1_round_trip_witness :
    decryptStr ctxW idCipher (encryptStr ctxW idCipher (List.replicate 16 0) (ascii "hi")) =
      .ok (ascii "hi") :=
  c1_round_trip ctxW idCipher (List.replicate 16 0) (ascii "hi") goodCipher_id
    (by decide) (by decide) (by decide) (by decide) (by decide) (by decide) (by decide)
